import Mathlib

/-!
Verification development for the SeismicMesh mesh-relaxation engine
(`SeismicMesh/generation/mesh_generator.py`, method `MeshGenerator.build`).

The engine is shallowly embedded over exact rationals (`ℚ`).  Machine
floating-point values are modelled as rationals; `np.sqrt` and the `dim`-th
root `x ** (1.0 / dim)` are modelled as function parameters of the
configuration (`Config.sqrt`, `Config.root`), since their exact rounding is
not relevant to the structural claims settled here.  Concrete instances use
the exact rational square root `ratSqrt` below, which agrees with real
square root on perfect squares (all concrete inputs used are arranged so
that every square root taken is exact).

The stream of draws of `np.random.rand` after `np.random.seed(seed)` is
modelled as the configuration field `rand : ℕ → ℚ` (draw index ↦ value),
which is fully determined by the seed.

Reductions over empty arrays (`.max()`, `.min()`) raise `ValueError` in
numpy; they are modelled as `Option`/`Except` (`Err.emptyReduce`).  An
in-place update `p += deltat * Ftot` with mismatching shapes raises a
broadcast `ValueError`; it is modelled as `Err.shapeMismatch`.
-/

/-- Heron iteration for the integer square root, structurally recursive on
a fuel argument so that it reduces inside the kernel. -/
def sqrtIter (n : ℕ) : ℕ → ℕ → ℕ
  | 0, x => x
  | f+1, x => if x * x ≤ n then x else sqrtIter n f ((x + n / x) / 2)

/-- Integer square root (exact on perfect squares; used only to instantiate
the abstract square-root parameter of the embedding at concrete inputs). -/
def natSqrt (n : ℕ) : ℕ := sqrtIter n 128 n

/-- Exact rational square root: square root of numerator and denominator.
On rationals whose numerator and denominator are perfect squares (the only
inputs it is applied to in this file) it equals the real square root. -/
def ratSqrt (q : ℚ) : ℚ := (natSqrt q.num.toNat : ℚ) / (natSqrt q.den : ℚ)

/-! ### Vector helpers (rows of numpy arrays as lists of rationals) -/

/-- Componentwise sum of two coordinate rows (`a + b` on numpy rows). -/
def vAdd (a b : List ℚ) : List ℚ := List.zipWith (fun x y => x + y) a b

/-- Componentwise difference (`a - b` on numpy rows). -/
def vSub (a b : List ℚ) : List ℚ := List.zipWith (fun x y => x - y) a b

/-- Scalar times row (`c * a` on numpy rows). -/
def vScale (c : ℚ) (a : List ℚ) : List ℚ := a.map (fun x => c * x)

/-- `(a ** 2).sum()`: the squared euclidean norm of a row. -/
def sqNorm (a : List ℚ) : ℚ := (a.map (fun x => x * x)).sum

/-- `array.max()`: `none` on an empty array (numpy raises `ValueError`). -/
def maxQ : List ℚ → Option ℚ
  | [] => none
  | x :: xs => some (xs.foldl max x)

/-- `array.min()`: `none` on an empty array (numpy raises `ValueError`). -/
def minQ : List ℚ → Option ℚ
  | [] => none
  | x :: xs => some (xs.foldl min x)

/-- Row at index `i` of a point array (`p[i]`); indices produced by the
triangulation backend are in range in every use in this file. -/
def row (p : List (List ℚ)) (i : ℕ) : List ℚ := p.getD i []

/-! ### Sorting and deduplication (`np.unique(..., axis=0)` sorts rows
lexicographically and removes exact duplicates; `unique_rows` of
`SeismicMesh.generation.utils` behaves the same on the bar array). -/

/-- Lexicographic order on coordinate rows, as a boolean (rows compared
column by column, as `np.unique` sorts a 2-d array). -/
def lexLe : List ℚ → List ℚ → Bool
  | [], _ => true
  | _ :: _, [] => false
  | a :: as, b :: bs => if a < b then true else if b < a then false else lexLe as bs

/-- Lexicographic order on rows, as a proposition (for `insertionSort`). -/
def rowLe (a b : List ℚ) : Prop := lexLe a b = true

instance : DecidableRel rowLe := fun a b => inferInstanceAs (Decidable (lexLe a b = true))

/-- Lexicographic order on index pairs, as `np.unique` sorts an integer
2-column array. -/
def pairLe (a b : ℕ × ℕ) : Prop := a.1 < b.1 ∨ (a.1 = b.1 ∧ a.2 ≤ b.2)

instance : DecidableRel pairLe := fun a b =>
  inferInstanceAs (Decidable (a.1 < b.1 ∨ (a.1 = b.1 ∧ a.2 ≤ b.2)))

instance : IsTotal (ℕ × ℕ) pairLe := ⟨by intro a b; unfold pairLe; omega⟩

instance : IsTrans (ℕ × ℕ) pairLe := ⟨by intro a b c; unfold pairLe; omega⟩

/-- Remove adjacent duplicates of a (sorted) list: the deduplication half
of `np.unique`. -/
def dedupAdjacent [DecidableEq α] : List α → List α
  | [] => []
  | [x] => [x]
  | x :: y :: xs => if x = y then dedupAdjacent (y :: xs) else x :: dedupAdjacent (y :: xs)

/-- `np.unique(p, axis=0)`: sort rows lexicographically, drop duplicates. -/
def uniqueRows (p : List (List ℚ)) : List (List ℚ) :=
  dedupAdjacent (List.insertionSort rowLe p)

/-- Modelled from the spec: `unique_rows` (from
`SeismicMesh.generation.utils`, whose source is not included): the bar set
is the set of "unique undirected index pairs derived from `T` by sorting
each pair and removing duplicates", i.e. an `np.unique`-style sorted
deduplication of the 2-column bar array. -/
def uniquePairs (l : List (ℕ × ℕ)) : List (ℕ × ℕ) :=
  dedupAdjacent (List.insertionSort pairLe l)

/-! ### Seeding (step 1 and 2 of `build`) -/

/-- One axis of `np.mgrid[slice(min, max + h0, h0)]`: the values
`min + k*h0` for `k < ⌈((max + h0) - min) / h0⌉` (numpy arange count). -/
def axisRange (lo hi h : ℚ) : List ℚ :=
  (List.range (Int.toNat ⌈(hi + h - lo) / h⌉)).map (fun k => lo + (k : ℚ) * h)

/-- Cartesian product of per-axis ranges, first axis outermost: the point
rows of `np.mgrid[...].reshape(dim, -1).T`. -/
def cartesian : List (List ℚ) → List (List ℚ)
  | [] => [[]]
  | r :: rs => r.flatMap (fun x => (cartesian rs).map (fun q => x :: q))

/-! ### The engine's data -/

/-- Errors the engine can raise (numpy `ValueError`s): a reduction
(`.max()` / `.min()`) over an empty selection, or an in-place update with
mismatched shapes. -/
inductive Err
  | emptyReduce
  | shapeMismatch
  deriving DecidableEq, Repr

/-- The inputs of a run of `build`: the sizing/geometry provider
(`fd`, `fh`, `hmin`, `bbox`), the fixed points, the iteration budget, the
triangulation backend, the two root functions of float arithmetic
(see the module comment) and the seeded pseudo-random stream. -/
structure Config where
  dim : ℕ
  bbox : List (ℚ × ℚ)
  h0 : ℚ
  fd : List ℚ → ℚ
  fh : List ℚ → ℚ
  pfix : List (List ℚ)
  maxIter : ℤ
  tri : List (List ℚ) → List (List ℕ)
  sqrt : ℚ → ℚ
  root : ℚ → ℚ
  rand : ℕ → ℚ

/-- `ptol = 0.001`. -/
def ptol : ℚ := 1/1000

/-- `ttol = 0.1`. -/
def ttol : ℚ := 1/10

/-- `deltat = 0.1`. -/
def deltat : ℚ := 1/10

/-- `L0mult = 1 + 0.4 / 2 ** (dim - 1)`. -/
def L0mult (dim : ℕ) : ℚ := 1 + (2/5) / 2 ^ (dim - 1)

/-- `geps = 1e-1 * h0`. -/
def geps (cfg : Config) : ℚ := (1/10) * cfg.h0

/-- `np.finfo(np.double).eps = 2 ** (-52)`. -/
def epsDouble : ℚ := 1 / 2 ^ 52

/-- `deps = np.sqrt(np.finfo(np.double).eps) * h0`. -/
def depsOf (cfg : Config) : ℚ := cfg.sqrt epsDouble * cfg.h0

/-- The state carried across iterations of the `while True` loop: the
point array, the snapshot `pold` (`none` models the initial scalar
`float("inf")` sentinel), the current simplices and bars, the iteration
counter and the fixed row count `N` of the force accumulator. -/
structure LoopState where
  p : List (List ℚ)
  pold : Option (List (List ℚ))
  t : List (List ℕ)
  bars : List (ℕ × ℕ)
  count : ℕ
  N : ℕ
  deriving DecidableEq, Repr

/-- What `build` returns: `p`, `t`, and whether the convergence break
(rather than the iteration-budget break) was taken. -/
structure BuildOutput where
  p : List (List ℚ)
  t : List (List ℕ)
  converged : Bool
  deriving DecidableEq, Repr

/-- The mid-iteration data after steps 3–7 (retriangulation, force
computation, position update, projection), consumed by step 8. -/
structure Mid where
  p3 : List (List ℚ)
  t1 : List (List ℕ)
  bars1 : List (ℕ × ℕ)
  pold1 : Option (List (List ℚ))
  Ftot : List (List ℚ)
  d : List ℚ
  count : ℕ
  N : ℕ
  deriving DecidableEq, Repr

/-- Steps 1–2 of `build`: lattice seeding over the bounding box, rejection
of points with `fd(p) >= geps`, probabilistic thinning by
`rand() < r0.min() ** dim / r0 ** dim`, and prepending of the fixed
points.  `r0.min()` over an empty selection raises. -/
def seedPoints (cfg : Config) : Except Err (List (List ℚ) × ℕ) :=
  match minQ ((cartesian (cfg.bbox.map (fun ab => axisRange ab.1 ab.2 cfg.h0))).filter
      (fun q => cfg.fd q < geps cfg) |>.map cfg.fh) with
  | none => .error .emptyReduce
  | some rmin =>
    .ok (let p := cfg.pfix ++
      ((((cartesian (cfg.bbox.map (fun ab => axisRange ab.1 ab.2 cfg.h0))).filter
          (fun q => cfg.fd q < geps cfg)).enum.filter
        (fun iq => cfg.rand iq.1 < rmin ^ cfg.dim / (cfg.fh iq.2) ^ cfg.dim)).map
        (fun iq => iq.2));
      (p, p.length))

/-- `(dist(p, pold) / h0).max() > ttol`: with the initial `pold = inf`
sentinel every distance is infinite, so the comparison is true whenever the
array is non-empty; `.max()` over an empty array raises. -/
def triggerCheck (cfg : Config) (p : List (List ℚ)) (pold : Option (List (List ℚ))) :
    Except Err Bool :=
  match pold with
  | none => if p.isEmpty then .error .emptyReduce else .ok true
  | some q =>
    match maxQ ((p.zip q).map (fun ab => cfg.sqrt (sqNorm (vSub ab.1 ab.2)) / cfg.h0)) with
    | none => .error .emptyReduce
    | some m => .ok (ttol < m)

/-- `p[t].sum(1) / (dim + 1)`: centroid of one simplex. -/
def simplexCentroid (dim : ℕ) (p : List (List ℚ)) (s : List ℕ) : List ℚ :=
  vScale (1 / ((dim : ℚ) + 1)) (s.foldl (fun acc i => vAdd acc (row p i)) (List.replicate dim 0))

/-- The index-pair slots whose concatenation forms the raw bar list:
`[t[:,[0,1]], t[:,[1,2]], t[:,[2,0]]]` in 2-d, the six edges in 3-d. -/
def barSlots (dim : ℕ) : List (ℕ × ℕ) :=
  if dim = 2 then [(0,1), (1,2), (2,0)]
  else if dim = 3 then [(0,1), (1,2), (2,0), (0,3), (1,3), (2,3)]
  else []

/-- `np.sort(bars, axis=1)` on one row: order the pair ascending. -/
def sortPair (pr : ℕ × ℕ) : ℕ × ℕ := if pr.1 ≤ pr.2 then pr else (pr.2, pr.1)

/-- The concatenated raw bar rows of the simplex list (step 4, before
sorting and deduplication). -/
def rawBars (dim : ℕ) (t : List (List ℕ)) : List (ℕ × ℕ) :=
  (barSlots dim).flatMap (fun sl => t.map (fun s => (s.getD sl.1 0, s.getD sl.2 0)))

/-- Step 4: bars as unique pairs of nodes. -/
def barsOfT (dim : ℕ) (t : List (List ℕ)) : List (ℕ × ℕ) :=
  uniquePairs ((rawBars dim t).map sortPair)

/-- Step 3–4 on the deduplicated points `pu`: triangulate, discard every
simplex whose centroid has `fd(pmid) >= -geps`, extract the bars. -/
def retrianStep (cfg : Config) (pu : List (List ℚ)) : List (List ℕ) × List (ℕ × ℕ) :=
  ((cfg.tri pu).filter (fun s => cfg.fd (simplexCentroid cfg.dim pu s) < -(geps cfg)),
   barsOfT cfg.dim ((cfg.tri pu).filter (fun s => cfg.fd (simplexCentroid cfg.dim pu s) < -(geps cfg))))

/-- `F = L0 - L; F[F < 0] = 0`, the clamp half: negative entries to zero. -/
def clampPos (l : List ℚ) : List ℚ := l.map (fun x => if x < 0 then 0 else x)

/-- Add a row vector into row `i` of an accumulator array. -/
def addAt : List (List ℚ) → ℕ → List ℚ → List (List ℚ)
  | [], _, _ => []
  | r :: rs, 0, v => (List.zipWith (fun x y => x + y) r v) :: rs
  | r :: rs, i+1, v => r :: addAt rs i v

/-- Modelled from the spec: `dense` (from `SeismicMesh.generation.utils`,
whose source is not included): the design notes describe it as an explicit
scatter-add — "initialize a zero vector of length `N*dim`, iterate bars,
add/subtract the bar's force vector at each endpoint's offset". -/
def scatterAdd (N dim : ℕ) (bars : List (ℕ × ℕ)) (fvec : List (List ℚ)) : List (List ℚ) :=
  (bars.zip fvec).foldl (fun acc bv => addAt (addAt acc bv.1.1 bv.2) bv.1.2 (vScale (-1) bv.2))
    (List.replicate N (List.replicate dim 0))

/-- `Ftot[:nfix] = 0`: zero the first `nfix` rows of the force array. -/
def zeroFix (nfix dim : ℕ) (rows : List (List ℚ)) : List (List ℚ) :=
  (rows.take nfix).map (fun _ => List.replicate dim 0) ++ rows.drop nfix

/-- Step 6: bar vectors, bar lengths `L`, desired lengths
`L0 = hbars * L0mult * ((L**dim).sum() / (hbars**dim).sum()) ** (1/dim)`,
scalar forces `F = max(L0 - L, 0)`, vector forces `Fvec = F/L * barvec`,
scatter-added into the dense per-vertex array, with the first `nfix` rows
zeroed. -/
def forceTotal (cfg : Config) (p : List (List ℚ)) (bars : List (ℕ × ℕ)) (N : ℕ) :
    List (List ℚ) :=
  let barvec := bars.map (fun b => vSub (row p b.1) (row p b.2))
  let L := barvec.map (fun v => cfg.sqrt (sqNorm v))
  let hbars := bars.map (fun b => cfg.fh (vScale (1/2) (vAdd (row p b.1) (row p b.2))))
  let scal := cfg.root (((L.map (fun x => x ^ cfg.dim)).sum) / ((hbars.map (fun x => x ^ cfg.dim)).sum))
  let L0 := hbars.map (fun h => h * L0mult cfg.dim * scal)
  let F := clampPos (List.zipWith (fun a b => a - b) L0 L)
  let fvec := List.zipWith (fun f lv => vScale (f / lv.1) lv.2) F (L.zip barvec)
  zeroFix cfg.pfix.length cfg.dim (scatterAdd N cfg.dim bars fvec)

/-- One forward difference `(fd(p[ix] + deps_vec(i)) - d[ix]) / deps`
along axis `k` of the distance field at a violating point. -/
def depsUnit (cfg : Config) (k : ℕ) : List ℚ :=
  (List.range cfg.dim).map (fun j => if j = k then depsOf cfg else 0)

/-- The forward-differenced gradient row of the signed-distance field. -/
def gradAt (cfg : Config) (pi : List ℚ) (di : ℚ) : List ℚ :=
  (List.range cfg.dim).map (fun k => (cfg.fd (vAdd pi (depsUnit cfg k)) - di) / depsOf cfg)

/-- `dgrad2 = np.where(dgrad2 < deps, deps, dgrad2)`: the divisor of the
projection step, clamped from below by `deps`. -/
def clampGrad2 (cfg : Config) (g2 : ℚ) : ℚ := if g2 < depsOf cfg then depsOf cfg else g2

/-- Step 7 at one point: a point with `d > 0` moves by
`-(d * dgrads / dgrad2)` (one guarded Newton step); others are unchanged. -/
def projectPoint (cfg : Config) (pi : List ℚ) (di : ℚ) : List ℚ :=
  if 0 < di then
    vSub pi (vScale (di / clampGrad2 cfg (sqNorm (gradAt cfg pi di))) (gradAt cfg pi di))
  else pi

/-- Step 7 over the whole array (`d` is the pre-projection distance row
computed right after the position update). -/
def project (cfg : Config) (p : List (List ℚ)) (d : List ℚ) : List (List ℚ) :=
  (p.zip d).map (fun pd => projectPoint cfg pd.1 pd.2)

/-- `np.sqrt((Ftot[d < -geps] ** 2).sum(1))`: the per-row force norms of
the interior selection used by the termination criterion. -/
def interiorNorms (cfg : Config) (Ftot : List (List ℚ)) (d : List ℚ) : List ℚ :=
  ((Ftot.zip d).filter (fun rd => rd.2 < -(geps cfg))).map (fun rd => cfg.sqrt (sqNorm rd.1))

/-- `maxdp = deltat * np.sqrt((Ftot[d < -geps] ** 2).sum(1)).max()`;
`none` when the interior selection is empty (numpy raises). -/
def maxdpOf (cfg : Config) (Ftot : List (List ℚ)) (d : List ℚ) : Option ℚ :=
  (maxQ (interiorNorms cfg Ftot d)).map (fun m => deltat * m)

/-- Steps 6–7 given the (possibly retriangulated) points, snapshot and
topology: force computation, position update (a shape-mismatching in-place
update raises), distance evaluation and boundary projection. -/
def advanceWith (cfg : Config) (s : LoopState) (p1 : List (List ℚ))
    (pold1 : Option (List (List ℚ))) (tb : List (List ℕ) × List (ℕ × ℕ)) :
    Except Err Mid :=
  let Ftot := forceTotal cfg p1 tb.2 s.N
  if p1.length = s.N then
    let p2 := List.zipWith (fun pi fi => vAdd pi (vScale deltat fi)) p1 Ftot
    let d := p2.map cfg.fd
    .ok ⟨project cfg p2 d, tb.1, tb.2, pold1, Ftot, d, s.count, s.N⟩
  else .error .shapeMismatch

/-- Steps 3–7 of one iteration of the loop: the movement trigger decides
whether to deduplicate, snapshot and retriangulate, then the points are
advanced. -/
def advance (cfg : Config) (s : LoopState) : Except Err Mid :=
  match triggerCheck cfg s.p s.pold with
  | .error e => .error e
  | .ok true =>
    advanceWith cfg s (uniqueRows s.p) (some (uniqueRows s.p))
      (retrianStep cfg (uniqueRows s.p))
  | .ok false => advanceWith cfg s s.p s.pold (s.t, s.bars)

/-- Step 8: terminate converged when `maxdp < ptol * h0`, else terminate
on the iteration budget when `count == max_iter - 1`, else continue with
`count + 1`.  The `maxdp` reduction over an empty interior selection
raises. -/
def finalize (cfg : Config) (m : Mid) : Except Err (BuildOutput ⊕ LoopState) :=
  match maxdpOf cfg m.Ftot m.d with
  | none => .error .emptyReduce
  | some dp =>
    if dp < ptol * cfg.h0 then .ok (.inl ⟨m.p3, m.t1, true⟩)
    else if (m.count : ℤ) = cfg.maxIter - 1 then .ok (.inl ⟨m.p3, m.t1, false⟩)
    else .ok (.inr ⟨m.p3, m.pold1, m.t1, m.bars1, m.count + 1, m.N⟩)

/-- One full execution of the body of the `while True` loop. -/
def loopBody (cfg : Config) (s : LoopState) : Except Err (BuildOutput ⊕ LoopState) :=
  match advance cfg s with
  | .error e => .error e
  | .ok m => finalize cfg m

/-- Run the loop for at most `fuel` body executions; `none` means the loop
is still running after `fuel` executions. -/
def loopGo (cfg : Config) : ℕ → LoopState → Option (Except Err BuildOutput)
  | 0, _ => none
  | f+1, s =>
    match loopBody cfg s with
    | .error e => some (.error e)
    | .ok (.inl out) => some (.ok out)
    | .ok (.inr s') => loopGo cfg f s'

/-- `build`: seeding followed by the relaxation loop, observed for at most
`fuel` iterations (`none` = still running, the loop has executed more than
`fuel` iterations without terminating). -/
def buildWithFuel (cfg : Config) (fuel : ℕ) : Option (Except Err BuildOutput) :=
  match seedPoints cfg with
  | .error e => some (.error e)
  | .ok ps => loopGo cfg fuel ⟨ps.1, none, [], [], 0, ps.2⟩

/-! ### Concrete instances used by witnesses and counterexamples

All of them use the exact rational square root `ratSqrt` for both root
functions; every square root taken during their evaluation is of a perfect
square of a rational, where `ratSqrt` agrees with the real square root. -/

/-- A signed-distance field that is deep inside everywhere except at the
single point `(0.02, 0)`, where it is positive. -/
def lineFd : List ℚ → ℚ := fun q => if q = [1/50, 0] then 1 else -1000

/-- A sizing field equal to `1/2` at `x = ±1/2` and `1` elsewhere. -/
def lineFh : List ℚ → ℚ :=
  fun q => if q.getD 0 0 = 1/2 ∨ q.getD 0 0 = -(1/2) then 1/2 else 1

/-- Three collinear lattice points on `y = 0` plus the fixed point
`(-1, 0)`, a backend returning the single simplex `[0, 1, 2]`, and an
iteration budget of `mi`. -/
def lineCfg (mi : ℤ) : Config :=
  { dim := 2, bbox := [(0, 2), (0, 0)], h0 := 1, fd := lineFd, fh := lineFh,
    pfix := [[-1, 0]], maxIter := mi, tri := fun _ => [[0, 1, 2]],
    sqrt := ratSqrt, root := ratSqrt, rand := fun _ => 0 }

/-- The deduplicated point array of the first iteration of `lineCfg`. -/
def linePts : List (List ℚ) := [[-1, 0], [0, 0], [1, 0], [2, 0]]

/-- A run with one fixed point `(1.5, 0)` that is lexicographically larger
than the lattice points `(0,0)`, `(1,0)`, and a degenerate backend
returning no simplices. -/
def fixCfg : Config :=
  { dim := 2, bbox := [(0, 2), (0, 0)], h0 := 1, fd := fun _ => -1000,
    fh := fun _ => 1, pfix := [[3/2, 0]], maxIter := 10, tri := fun _ => [],
    sqrt := ratSqrt, root := ratSqrt, rand := fun _ => 0 }

/-- A domain that keeps no lattice point at all (`fd = 1000` everywhere)
and has no fixed points: the seeded point set is empty. -/
def emptyCfg : Config :=
  { dim := 2, bbox := [(0, 2), (0, 0)], h0 := 1, fd := fun _ => 1000,
    fh := fun _ => 1, pfix := [], maxIter := 10, tri := fun _ => [],
    sqrt := ratSqrt, root := ratSqrt, rand := fun _ => 0 }

/-- A one-point state with every point deep inside (`fd = -1000`) and a
backend returning no simplices. -/
def insideCfg : Config :=
  { dim := 2, bbox := [(0, 2), (0, 0)], h0 := 1, fd := fun _ => -1000,
    fh := fun _ => 1, pfix := [], maxIter := 10, tri := fun _ => [],
    sqrt := ratSqrt, root := ratSqrt, rand := fun _ => 0 }

/-- A configuration whose distance field vanishes everywhere: every point
sits on the boundary, so no point is in the interior selection. -/
def flatCfg : Config :=
  { dim := 2, bbox := [(0, 2), (0, 0)], h0 := 1, fd := fun _ => 0,
    fh := fun _ => 1, pfix := [], maxIter := 10, tri := fun _ => [],
    sqrt := ratSqrt, root := ratSqrt, rand := fun _ => 0 }

/-- A one-point loop state (first iteration, sentinel `pold`). -/
def oneState : LoopState := ⟨[[0, 0]], none, [], [], 0, 1⟩

/-- The mid-iteration data `advance` produces from `oneState` under
`flatCfg`. -/
def flatMid : Mid := ⟨[[0, 0]], [], [], some [[0, 0]], [[0, 0]], [0], 0, 1⟩

/-- The mid-iteration data `advance` produces from `oneState` under
`insideCfg`. -/
def insideMid : Mid := ⟨[[0, 0]], [], [], some [[0, 0]], [[0, 0]], [-1000], 0, 1⟩

/-- The point array returned by the `lineCfg 1` run. -/
def lineOut : List (List ℚ) := [[-1, 0], [0, 0], [53/50, 0], [2, 0]]

/-- The point array returned by the `fixCfg` run: the lattice points
sorted ahead of the fixed point by the deduplication step. -/
def fixOut : List (List ℚ) := [[0, 0], [1, 0], [3/2, 0], [2, 0]]

/-! ### Helper lemmas -/

theorem max_ite_neg (x : ℚ) : (if x < 0 then (0 : ℚ) else x) = max x 0 := by
  rcases le_or_lt 0 x with h | h
  · rw [if_neg (not_lt.2 h), max_eq_left h]
  · rw [if_pos h, max_eq_right h.le]

theorem advanceWith_count (cfg : Config) (s : LoopState) (p1 : List (List ℚ))
    (pold1 : Option (List (List ℚ))) (tb : List (List ℕ) × List (ℕ × ℕ)) (m : Mid)
    (h : advanceWith cfg s p1 pold1 tb = .ok m) : m.count = s.count := by
  unfold advanceWith at h
  split at h
  · simp only [Except.ok.injEq] at h
    subst h
    rfl
  · exact absurd h (by simp)

theorem advance_count (cfg : Config) (s : LoopState) (m : Mid)
    (h : advance cfg s = .ok m) : m.count = s.count := by
  unfold advance at h
  split at h
  · exact absurd h (by simp)
  · exact advanceWith_count cfg s _ _ _ m h
  · exact advanceWith_count cfg s _ _ _ m h

theorem loopBody_eq_finalize (cfg : Config) (s : LoopState) (m : Mid)
    (hadv : advance cfg s = .ok m) : loopBody cfg s = finalize cfg m := by
  unfold loopBody
  rw [hadv]

theorem finalize_eq (cfg : Config) (m : Mid) (dp : ℚ)
    (hdp : maxdpOf cfg m.Ftot m.d = some dp) :
    finalize cfg m =
      (if dp < ptol * cfg.h0 then .ok (.inl ⟨m.p3, m.t1, true⟩)
       else if (m.count : ℤ) = cfg.maxIter - 1 then .ok (.inl ⟨m.p3, m.t1, false⟩)
       else .ok (.inr ⟨m.p3, m.pold1, m.t1, m.bars1, m.count + 1, m.N⟩)) := by
  unfold finalize
  rw [hdp]

theorem finalize_none (cfg : Config) (m : Mid)
    (hdp : maxdpOf cfg m.Ftot m.d = none) : finalize cfg m = .error .emptyReduce := by
  unfold finalize
  rw [hdp]

theorem loopBody_continue (cfg : Config) (s s' : LoopState)
    (h : loopBody cfg s = .ok (.inr s')) :
    s'.count = s.count + 1 ∧ (s.count : ℤ) ≠ cfg.maxIter - 1 := by
  cases hadv : advance cfg s with
  | error e => rw [loopBody, hadv] at h; exact absurd h (by simp)
  | ok m =>
    rw [loopBody_eq_finalize cfg s m hadv] at h
    cases hdp : maxdpOf cfg m.Ftot m.d with
    | none => rw [finalize_none cfg m hdp] at h; exact absurd h (by simp)
    | some dp =>
      rw [finalize_eq cfg m dp hdp] at h
      have hcnt := advance_count cfg s m hadv
      split_ifs at h with h1 h2
      · simp at h
      · simp at h
      · simp only [Except.ok.injEq, Sum.inr.injEq] at h
        subst h
        exact ⟨by rw [hcnt], by rw [hcnt] at h2; exact h2⟩

theorem loopGo_succ_err (cfg : Config) (f : ℕ) (s : LoopState) (e : Err)
    (hb : loopBody cfg s = .error e) : loopGo cfg (f + 1) s = some (.error e) := by
  rw [loopGo, hb]

theorem loopGo_succ_break (cfg : Config) (f : ℕ) (s : LoopState) (out : BuildOutput)
    (hb : loopBody cfg s = .ok (.inl out)) : loopGo cfg (f + 1) s = some (.ok out) := by
  rw [loopGo, hb]

theorem loopGo_succ_continue (cfg : Config) (f : ℕ) (s s' : LoopState)
    (hb : loopBody cfg s = .ok (.inr s')) : loopGo cfg (f + 1) s = loopGo cfg f s' := by
  rw [loopGo, hb]

theorem loopGo_terminates (cfg : Config) : ∀ (f : ℕ) (s : LoopState), 1 ≤ f →
    (s.count : ℤ) + (f : ℤ) = cfg.maxIter → loopGo cfg f s ≠ none := by
  intro f
  induction f with
  | zero => intro s h1 _; exact absurd h1 (by omega)
  | succ n ih =>
    intro s _ hsum
    cases hb : loopBody cfg s with
    | error e => rw [loopGo_succ_err cfg n s e hb]; simp
    | ok r =>
      cases r with
      | inl out => rw [loopGo_succ_break cfg n s out hb]; simp
      | inr s' =>
        rw [loopGo_succ_continue cfg n s s' hb]
        obtain ⟨hc, hne⟩ := loopBody_continue cfg s s' hb
        have hn : n ≠ 0 := by
          rintro rfl
          apply hne
          push_cast at hsum
          omega
        apply ih s' (by omega)
        rw [hc]
        push_cast at hsum ⊢
        omega

/-! ### The claims -/

/-- Claim C1 (the claim is right, the code has a bug): the code promises
that the first `nfix` rows of `p` stay bit-identical to the caller's fixed
points, but `np.unique(p, axis=0)` sorts the rows lexicographically at the
first retriangulation, so a fixed point that is not lexicographically
minimal is moved away from the front, and `Ftot[:nfix] = 0` afterwards
pins the wrong rows.  Concretely: with `pfix = [(3/2, 0)]` and lattice
points `(0,0), (1,0), (2,0)`, the returned point set starts with `(0,0)`,
not with the fixed point. -/
theorem cC1_fixed_points_reordered :
    buildWithFuel fixCfg 1 = some (.ok ⟨fixOut, [], true⟩) ∧
    fixOut.take fixCfg.pfix.length ≠ fixCfg.pfix :=
  ⟨by with_unfolding_all rfl, of_decide_eq_true (by with_unfolding_all rfl)⟩

/-- Claim C2, counterexample: with `max_iter = 0` the budget branch
compares `count` (non-negative) against `max_iter - 1 = -1` and never
fires, so the loop is still running after one full body execution —
it does not terminate within `max_iter = 0` iterations. -/
theorem cC2_cex : buildWithFuel (lineCfg 0) 1 = none := by with_unfolding_all rfl

/-- Claim C2 (amended to `max_iter >= 1`): the relaxation loop terminates
within `max_iter` body executions: `count` starts at `0`, increases by one
per non-terminating iteration, and the body always breaks (or raises) once
`count == max_iter - 1`. -/
theorem cC2_budget_terminates (cfg : Config) (h : 1 ≤ cfg.maxIter) :
    buildWithFuel cfg (Int.toNat cfg.maxIter) ≠ none := by
  unfold buildWithFuel
  cases hs : seedPoints cfg with
  | error e => simp
  | ok ps =>
    refine loopGo_terminates cfg _ _ (by omega) ?_
    show ((0 : ℕ) : ℤ) + (Int.toNat cfg.maxIter : ℤ) = cfg.maxIter
    omega

/-- Witness for C2 at `max_iter = 1`. -/
theorem cC2_witness :
    1 ≤ (lineCfg 1).maxIter ∧
    buildWithFuel (lineCfg 1) (Int.toNat (lineCfg 1).maxIter) ≠ none :=
  ⟨of_decide_eq_true (by with_unfolding_all rfl),
   cC2_budget_terminates (lineCfg 1) (of_decide_eq_true (by with_unfolding_all rfl))⟩

/-- Claim C3, counterexample: the exterior filter runs only at
retriangulation time, against the positions current then; the points move
afterwards (force update) before the loop breaks.  In this run the
returned simplex `[0,1,2]` has centroid `(1/50, 0)` under the returned
positions, where the signed distance is `1`, not below `geps = 1/10`
(nor below `-geps`). -/
theorem cC3_cex :
    buildWithFuel (lineCfg 1) 1 = some (.ok ⟨lineOut, [[0, 1, 2]], false⟩) ∧
    ¬ (lineCfg 1).fd (simplexCentroid (lineCfg 1).dim lineOut [0, 1, 2]) <
        geps (lineCfg 1) :=
  ⟨by with_unfolding_all rfl, of_decide_eq_true (by with_unfolding_all rfl)⟩

/-- Claim C3 (amended): the guarantee that holds is at triangulation time:
every simplex kept by the filter of step 3 has centroid signed distance
strictly below `-geps`, computed with the deduplicated point positions
current at that retriangulation. -/
theorem cC3_interior_at_triangulation (cfg : Config) (pu : List (List ℚ))
    (s : List ℕ) (hmem : s ∈ (retrianStep cfg pu).1) :
    cfg.fd (simplexCentroid cfg.dim pu s) < -(geps cfg) := by
  have hmem' : s ∈ (cfg.tri pu).filter
      (fun s => cfg.fd (simplexCentroid cfg.dim pu s) < -(geps cfg)) := hmem
  have h := (List.mem_filter.mp hmem').2
  exact of_decide_eq_true h

/-- Witness for the amended C3 on the concrete `lineCfg` triangulation. -/
theorem cC3_witness :
    (lineCfg 1).fd (simplexCentroid (lineCfg 1).dim linePts [0, 1, 2]) <
      -(geps (lineCfg 1)) :=
  cC3_interior_at_triangulation (lineCfg 1) linePts [0, 1, 2]
    (of_decide_eq_true (by with_unfolding_all rfl))

/-- Claim C4: after the position update and projection, the body of the
loop terminates through the successful (converged) break exactly when
`maxdp = deltat * max |Ftot|` over the interior selection `d < -geps` is
below `ptol * h0` (`ptol = 1/1000`); the iteration-budget break is marked
not converged. -/
theorem cC4_convergence_iff (cfg : Config) (s : LoopState) (m : Mid) (dp : ℚ)
    (hadv : advance cfg s = .ok m) (hdp : maxdpOf cfg m.Ftot m.d = some dp) :
    (∃ out, loopBody cfg s = .ok (.inl out) ∧ out.converged = true) ↔
      dp < ptol * cfg.h0 := by
  rw [loopBody_eq_finalize cfg s m hadv, finalize_eq cfg m dp hdp]
  by_cases h1 : dp < ptol * cfg.h0
  · simp only [if_pos h1]
    exact ⟨fun _ => h1, fun _ => ⟨⟨m.p3, m.t1, true⟩, rfl, rfl⟩⟩
  · simp only [if_neg h1]
    constructor
    · rintro ⟨out, hout, hconv⟩
      split_ifs at hout
      · obtain rfl := (Sum.inl.injEq _ _).mp ((Except.ok.injEq _ _).mp hout)
        exact absurd hconv (by simp)
      · exact absurd hout (by simp)
    · intro h
      exact absurd h h1

/-- Witness for C4: a one-point interior state converging at once. -/
theorem cC4_witness :
    advance insideCfg oneState = .ok insideMid ∧
    maxdpOf insideCfg insideMid.Ftot insideMid.d = some 0 ∧
    (∃ out, loopBody insideCfg oneState = .ok (.inl out) ∧ out.converged = true) :=
  ⟨by with_unfolding_all rfl, by with_unfolding_all rfl,
   (cC4_convergence_iff insideCfg oneState insideMid 0 (by with_unfolding_all rfl)
      (by with_unfolding_all rfl)).mpr (of_decide_eq_true (by with_unfolding_all rfl))⟩

/-- Claim C5: the scalar bar force of step 6 is `F = L0 - L` followed by
`F[F < 0] = 0`, i.e. each bar's force magnitude equals `max(L0 - L, 0)`;
a bar at least as long as desired contributes zero force. -/
theorem cC5_force_clamp : ∀ (L0 L : List ℚ) (k : ℕ), k < L0.length → k < L.length →
    (clampPos (List.zipWith (fun a b => a - b) L0 L)).getD k 0 =
      max (L0.getD k 0 - L.getD k 0) 0 := by
  intro L0
  induction L0 with
  | nil => intro L k h1 _; exact absurd h1 (by simp)
  | cons a as ih =>
    intro L k h1 h2
    cases L with
    | nil => exact absurd h2 (by simp)
    | cons b bs =>
      cases k with
      | zero => simpa [clampPos] using max_ite_neg (a - b)
      | succ k =>
        simpa [clampPos] using ih bs k (by simpa using h1) (by simpa using h2)

/-- Witness for C5 on a concrete bar list. -/
theorem cC5_witness :
    (clampPos (List.zipWith (fun a b => a - b) [(2 : ℚ)] [1])).getD 0 0 =
      max ((2 : ℚ) - 1) 0 :=
  cC5_force_clamp [2] [1] 0 (by simp) (by simp)

/-- Claim C6: a point with positive signed distance after the update moves
by `-(d * dgrads / dgrad2)` with the forward-difference gradient `dgrads`
and the squared gradient magnitude clamped from below to `deps`, so the
divisor is at least `deps > 0` and the projection is total (it never
raises); points with `d <= 0` are untouched. -/
theorem cC6_projection_guarded (cfg : Config) (hdeps : 0 < depsOf cfg)
    (pi : List ℚ) (di : ℚ) :
    (0 < di →
      depsOf cfg ≤ clampGrad2 cfg (sqNorm (gradAt cfg pi di)) ∧
      0 < clampGrad2 cfg (sqNorm (gradAt cfg pi di)) ∧
      projectPoint cfg pi di =
        vSub pi (vScale (di / clampGrad2 cfg (sqNorm (gradAt cfg pi di)))
          (gradAt cfg pi di))) ∧
    (¬ 0 < di → projectPoint cfg pi di = pi) := by
  constructor
  · intro h
    have hle : depsOf cfg ≤ clampGrad2 cfg (sqNorm (gradAt cfg pi di)) := by
      unfold clampGrad2
      split_ifs with hg
      · exact le_refl _
      · exact le_of_not_lt hg
    exact ⟨hle, lt_of_lt_of_le hdeps hle, by rw [projectPoint, if_pos h]⟩
  · intro h
    rw [projectPoint, if_neg h]

/-- Witness for C6 under the concrete square root (`deps = 2 ^ (-26)`). -/
theorem cC6_witness :
    0 < depsOf (lineCfg 1) ∧ projectPoint (lineCfg 1) [0, 0] (-5) = [0, 0] :=
  ⟨of_decide_eq_true (by with_unfolding_all rfl),
   (cC6_projection_guarded (lineCfg 1) (of_decide_eq_true (by with_unfolding_all rfl))
      [0, 0] (-5)).2 (of_decide_eq_true (by with_unfolding_all rfl))⟩

/-- Claim C8: the embedded `build` is a pure function of the provider, the
fixed points, the backend, and the seeded pseudo-random stream, so equal
inputs (in particular an equal seed, which fixes `rand`) give equal
outputs. -/
theorem cC8_deterministic (cfg1 cfg2 : Config) (f1 f2 : ℕ)
    (hc : cfg1 = cfg2) (hf : f1 = f2) :
    buildWithFuel cfg1 f1 = buildWithFuel cfg2 f2 := by rw [hc, hf]

/-- Witness for C8: two identical runs. -/
theorem cC8_witness :
    insideCfg = insideCfg ∧ buildWithFuel insideCfg 2 = buildWithFuel insideCfg 2 :=
  ⟨rfl, cC8_deterministic insideCfg insideCfg 2 2 rfl rfl⟩

/-- Claim C10: when no point of the termination check's selection has
signed distance below `-geps` (all points boundary-adjacent), the
`.max()` reduction of step 8a runs over an empty selection and the body
raises instead of converging or reporting zero displacement. -/
theorem cC10_empty_interior_raises (cfg : Config) (s : LoopState) (m : Mid)
    (hadv : advance cfg s = .ok m) (hd : ∀ x ∈ m.d, -(geps cfg) ≤ x) :
    loopBody cfg s = .error .emptyReduce := by
  rw [loopBody_eq_finalize cfg s m hadv]
  have hnil : interiorNorms cfg m.Ftot m.d = [] := by
    unfold interiorNorms
    have : (m.Ftot.zip m.d).filter (fun rd => rd.2 < -(geps cfg)) = [] := by
      rw [List.filter_eq_nil_iff]
      intro a ha
      obtain ⟨u, v⟩ := a
      have hv := (List.of_mem_zip ha).2
      simpa using not_lt.2 (hd v hv)
    rw [this, List.map_nil]
  apply finalize_none
  rw [maxdpOf, hnil]
  rfl

/-- Witness for C10: a state whose every point sits on the boundary. -/
theorem cC10_witness : loopBody flatCfg oneState = .error .emptyReduce :=
  cC10_empty_interior_raises flatCfg oneState flatMid (by with_unfolding_all rfl)
    (of_decide_eq_true (by with_unfolding_all rfl))

/-! ### Helper lemmas for the degenerate-triangulation and bar-set claims -/

theorem mem_dedupAdjacent [DecidableEq α] :
    ∀ (l : List α) (a : α), a ∈ dedupAdjacent l → a ∈ l
  | [], _, h => by simp [dedupAdjacent] at h
  | [x], a, h => by simpa [dedupAdjacent] using h
  | x :: y :: xs, a, h => by
    rw [dedupAdjacent] at h
    split_ifs at h with hxy
    · exact List.mem_cons_of_mem x (mem_dedupAdjacent (y :: xs) a h)
    · rcases List.mem_cons.mp h with rfl | h'
      · exact List.mem_cons_self _ _
      · exact List.mem_cons_of_mem x (mem_dedupAdjacent (y :: xs) a h')

theorem mem_uniqueRows (p : List (List ℚ)) (q : List ℚ) (h : q ∈ uniqueRows p) :
    q ∈ p :=
  (List.perm_insertionSort rowLe p).mem_iff.mp (mem_dedupAdjacent _ _ h)

theorem vAdd_cons (x y : ℚ) (xs ys : List ℚ) :
    vAdd (x :: xs) (y :: ys) = (x + y) :: vAdd xs ys := rfl

theorem vScale_zeroRow (c : ℚ) (n : ℕ) :
    vScale c (List.replicate n 0) = List.replicate n 0 := by
  simp [vScale]

theorem vAdd_zeroRow : ∀ (a : List ℚ) (n : ℕ), a.length = n →
    vAdd a (List.replicate n 0) = a := by
  intro a
  induction a with
  | nil => intro n _; simp [vAdd]
  | cons x xs ih =>
    intro n h
    cases n with
    | zero => simp at h
    | succ k =>
      rw [List.replicate_succ, vAdd_cons, add_zero, ih k (by simpa using h)]

theorem update_zero (l : List (List ℚ)) (dim : ℕ) (hrow : ∀ q ∈ l, q.length = dim) :
    List.zipWith (fun pi fi => vAdd pi (vScale deltat fi)) l
      (List.replicate l.length (List.replicate dim 0)) = l := by
  induction l with
  | nil => simp
  | cons q qs ih =>
    rw [List.length_cons, List.replicate_succ, List.zipWith_cons_cons,
      vScale_zeroRow, vAdd_zeroRow q dim (hrow q (List.mem_cons_self q qs)),
      ih (fun r hr => hrow r (List.mem_cons_of_mem q hr))]

theorem sqNorm_zeroRow (n : ℕ) : sqNorm (List.replicate n 0) = 0 := by
  simp [sqNorm]

theorem scatterAdd_nil (N dim : ℕ) (fv : List (List ℚ)) :
    scatterAdd N dim [] fv = List.replicate N (List.replicate dim 0) := rfl

theorem zeroFix_zeroRows (nfix dim N : ℕ) :
    zeroFix nfix dim (List.replicate N (List.replicate dim 0)) =
      List.replicate N (List.replicate dim 0) := by
  unfold zeroFix
  rw [List.take_replicate, List.drop_replicate, List.map_replicate,
    ← List.replicate_add]
  congr 1
  omega

theorem rawBars_nil (dim : ℕ) : rawBars dim [] = [] := by
  unfold rawBars
  generalize barSlots dim = sl
  induction sl with
  | nil => rfl
  | cons a l ih => simp [List.flatMap_cons, ih]

theorem barsOfT_nil (dim : ℕ) : barsOfT dim [] = [] := by
  unfold barsOfT
  rw [rawBars_nil]
  rfl

theorem forceTotal_nil (cfg : Config) (p : List (List ℚ)) (N : ℕ) :
    forceTotal cfg p [] N = List.replicate N (List.replicate cfg.dim 0) := by
  unfold forceTotal
  simp only [List.map_nil, List.zipWith_nil_right, List.zip_nil_left, clampPos,
    scatterAdd_nil]
  exact zeroFix_zeroRows _ _ _

theorem triggerCheck_first (cfg : Config) (p : List (List ℚ)) (hp : p ≠ []) :
    triggerCheck cfg p none = .ok true := by
  unfold triggerCheck
  rw [if_neg]
  simp [List.isEmpty_eq_true, hp]

theorem foldl_max_zero : ∀ (l : List ℚ), (∀ x ∈ l, x = 0) → l.foldl max 0 = 0
  | [], _ => rfl
  | x :: xs, h => by
    have hx := h x (List.mem_cons_self x xs)
    subst hx
    rw [List.foldl_cons, max_self]
    exact foldl_max_zero xs (fun y hy => h y (List.mem_cons_of_mem _ hy))

theorem maxQ_all_zero : ∀ (l : List ℚ), (∀ x ∈ l, x = 0) → l ≠ [] → maxQ l = some 0
  | [], _, h => absurd rfl h
  | x :: xs, hall, _ => by
    rw [maxQ]
    have hx := hall x (List.mem_cons_self x xs)
    subst hx
    rw [foldl_max_zero xs (fun y hy => hall y (List.mem_cons_of_mem _ hy))]

theorem mem_zip_replicate : ∀ (d : List ℚ) (z : List ℚ) (b : ℚ), b ∈ d →
    (z, b) ∈ (List.replicate d.length z).zip d
  | [], _, _, h => absurd h (by simp)
  | x :: d', z, b, h => by
    rw [List.length_cons, List.replicate_succ, List.zip_cons_cons]
    rcases List.mem_cons.mp h with rfl | h'
    · exact List.mem_cons_self _ _
    · exact List.mem_cons_of_mem _ (mem_zip_replicate d' z b h')

/-- Claim C7, counterexample: a domain in which seeding keeps no lattice
point (and there are no fixed points) makes the seeded point set empty;
`build` then raises already at the `r0.min()` reduction of the rejection
step — an empty point set never reaches the triangulation backend, and
`build` does not return an empty simplex list without raising. -/
theorem cC7_cex : buildWithFuel emptyCfg 1 = some (.error .emptyReduce) := by
  with_unfolding_all rfl

/-- Claim C7 (amended): when the backend returns zero simplices for a
non-empty point set (first iteration shown: the sentinel `pold` forces the
trigger), the loop continues with empty bars and an all-zero force array,
the update moves nothing, and — provided some point is interior — the
reported displacement is zero, so the body terminates converged returning
the empty simplex list rather than failing. -/
theorem cC7_empty_triangulation (cfg : Config) (s : LoopState)
    (hp : s.p ≠ []) (hpold : s.pold = none)
    (htri : cfg.tri (uniqueRows s.p) = [])
    (hN : (uniqueRows s.p).length = s.N)
    (hrow : ∀ q ∈ s.p, q.length = cfg.dim)
    (hsq : cfg.sqrt 0 = 0) (hh0 : 0 < cfg.h0)
    (hin : ∃ q ∈ uniqueRows s.p, cfg.fd q < -(geps cfg)) :
    ∃ out, loopBody cfg s = .ok (.inl out) ∧ out.t = [] ∧ out.converged = true := by
  have htc : triggerCheck cfg s.p s.pold = .ok true := by
    rw [hpold]
    exact triggerCheck_first cfg s.p hp
  have hrt : retrianStep cfg (uniqueRows s.p) = ([], []) := by
    unfold retrianStep
    rw [htri]
    simp [barsOfT_nil]
  have hp2 : List.zipWith (fun pi fi => vAdd pi (vScale deltat fi)) (uniqueRows s.p)
      (List.replicate s.N (List.replicate cfg.dim 0)) = uniqueRows s.p := by
    rw [← hN]
    exact update_zero _ _ (fun q hq => hrow q (mem_uniqueRows _ _ hq))
  have hadv : advance cfg s = .ok
      ⟨project cfg (uniqueRows s.p) ((uniqueRows s.p).map cfg.fd), [], [],
        some (uniqueRows s.p), List.replicate s.N (List.replicate cfg.dim 0),
        (uniqueRows s.p).map cfg.fd, s.count, s.N⟩ := by
    unfold advance
    rw [htc]
    unfold advanceWith
    rw [hrt]
    simp only [forceTotal_nil, if_pos hN, hp2]
  obtain ⟨q0, hq0mem, hq0⟩ := hin
  have hlen_d : ((uniqueRows s.p).map cfg.fd).length = s.N := by
    rw [List.length_map, hN]
  have hmem0 : (List.replicate cfg.dim (0 : ℚ), cfg.fd q0) ∈
      (List.replicate s.N (List.replicate cfg.dim 0)).zip
        ((uniqueRows s.p).map cfg.fd) := by
    rw [← hlen_d]
    exact mem_zip_replicate _ _ _ (List.mem_map_of_mem cfg.fd hq0mem)
  have hmemN : cfg.sqrt (sqNorm (List.replicate cfg.dim 0)) ∈
      interiorNorms cfg (List.replicate s.N (List.replicate cfg.dim 0))
        ((uniqueRows s.p).map cfg.fd) := by
    unfold interiorNorms
    exact List.mem_map_of_mem _ (List.mem_filter.mpr ⟨hmem0, by simpa using hq0⟩)
  have hzero : ∀ x ∈ interiorNorms cfg (List.replicate s.N (List.replicate cfg.dim 0))
      ((uniqueRows s.p).map cfg.fd), x = 0 := by
    intro x hx
    unfold interiorNorms at hx
    obtain ⟨rd, hrd, rfl⟩ := List.mem_map.mp hx
    obtain ⟨u, v⟩ := rd
    have h1 := (List.of_mem_zip (List.mem_filter.mp hrd).1).1
    rw [List.eq_of_mem_replicate h1, sqNorm_zeroRow, hsq]
  have hdp : maxdpOf cfg (List.replicate s.N (List.replicate cfg.dim 0))
      ((uniqueRows s.p).map cfg.fd) = some (deltat * 0) := by
    rw [maxdpOf, maxQ_all_zero _ hzero (List.ne_nil_of_mem hmemN)]
    rfl
  rw [loopBody_eq_finalize cfg s _ hadv, finalize_eq cfg _ _ hdp,
    if_pos (by rw [mul_zero]; exact mul_pos (by norm_num [ptol]) hh0)]
  exact ⟨_, rfl, rfl, rfl⟩

/-- Witness for the amended C7 on the one-point inside state. -/
theorem cC7_witness :
    ∃ out, loopBody insideCfg oneState = .ok (.inl out) ∧ out.t = [] ∧
      out.converged = true :=
  cC7_empty_triangulation insideCfg oneState
    (of_decide_eq_true (by with_unfolding_all rfl)) rfl
    (by with_unfolding_all rfl) (by with_unfolding_all rfl)
    (of_decide_eq_true (by with_unfolding_all rfl))
    (by with_unfolding_all rfl)
    (of_decide_eq_true (by with_unfolding_all rfl))
    ⟨[0, 0], of_decide_eq_true (by with_unfolding_all rfl),
      of_decide_eq_true (by with_unfolding_all rfl)⟩

/-! ### The bar-set claim -/

theorem pairLe_antisymm (a b : ℕ × ℕ) (h1 : pairLe a b) (h2 : pairLe b a) : a = b := by
  unfold pairLe at h1 h2
  obtain ⟨a1, a2⟩ := a
  obtain ⟨b1, b2⟩ := b
  simp only [Prod.mk.injEq]
  omega

theorem dedupAdjacent_nodup :
    ∀ (l : List (ℕ × ℕ)), l.Pairwise pairLe → (dedupAdjacent l).Nodup
  | [], _ => by simp [dedupAdjacent]
  | [x], _ => by simp [dedupAdjacent]
  | x :: y :: xs, h => by
    rw [dedupAdjacent]
    have hx : ∀ b ∈ y :: xs, pairLe x b := (List.pairwise_cons.mp h).1
    have hrest : (y :: xs).Pairwise pairLe := (List.pairwise_cons.mp h).2
    split_ifs with hxy
    · exact dedupAdjacent_nodup (y :: xs) hrest
    · rw [List.nodup_cons]
      refine ⟨?_, dedupAdjacent_nodup (y :: xs) hrest⟩
      intro hmem
      rcases List.mem_cons.mp (mem_dedupAdjacent _ _ hmem) with rfl | hxs
      · exact hxy rfl
      · exact hxy (pairLe_antisymm x y (hx y (List.mem_cons_self y xs))
          ((List.pairwise_cons.mp hrest).1 x hxs))

theorem sortPair_lt (x y : ℕ) (h : x ≠ y) :
    (sortPair (x, y)).1 < (sortPair (x, y)).2 := by
  unfold sortPair
  split_ifs with hle <;> simp <;> omega

/-- Claim C9: after every retriangulation the bar set holds each
undirected pair at most once (the list of pairs is duplicate-free), every
pair is sorted with strictly smaller first index, and there is no
self-pair — given that the triangulation backend honours its contract of
returning simplices of `dim + 1` pairwise-distinct vertex indices. -/
theorem cC9_bars_unique (dim : ℕ) (t : List (List ℕ))
    (hdim : dim = 2 ∨ dim = 3)
    (ht : ∀ s ∈ t, s.Nodup ∧ s.length = dim + 1) :
    (barsOfT dim t).Nodup ∧ ∀ pr ∈ barsOfT dim t, pr.1 < pr.2 := by
  constructor
  · unfold barsOfT uniquePairs
    exact dedupAdjacent_nodup _ (List.sorted_insertionSort pairLe _)
  · intro pr hpr
    unfold barsOfT uniquePairs at hpr
    have h2 := (List.perm_insertionSort pairLe _).mem_iff.mp
      (mem_dedupAdjacent _ _ hpr)
    obtain ⟨raw, hraw, rfl⟩ := List.mem_map.mp h2
    unfold rawBars at hraw
    obtain ⟨sl, hsl, hraw2⟩ := List.mem_flatMap.mp hraw
    obtain ⟨s, hs, rfl⟩ := List.mem_map.mp hraw2
    obtain ⟨hnd, hlen⟩ := ht s hs
    have hslprop : sl.1 ≠ sl.2 ∧ sl.1 < dim + 1 ∧ sl.2 < dim + 1 := by
      rcases hdim with rfl | rfl
      · simp [barSlots] at hsl
        rcases hsl with rfl | rfl | rfl <;> exact ⟨by decide, by decide, by decide⟩
      · simp [barSlots] at hsl
        rcases hsl with rfl | rfl | rfl | rfl | rfl | rfl <;>
          exact ⟨by decide, by decide, by decide⟩
    have ha : sl.1 < s.length := by omega
    have hb : sl.2 < s.length := by omega
    have hne : s.getD sl.1 0 ≠ s.getD sl.2 0 := by
      rw [List.getD_eq_getElem s 0 ha, List.getD_eq_getElem s 0 hb]
      intro heq
      exact hslprop.1 ((List.Nodup.getElem_inj_iff hnd).mp heq)
    exact sortPair_lt _ _ hne

/-- Witness for C9 on the single triangle `[0, 1, 2]`. -/
theorem cC9_witness :
    (barsOfT 2 [[0, 1, 2]]).Nodup ∧ ∀ pr ∈ barsOfT 2 [[0, 1, 2]], pr.1 < pr.2 :=
  cC9_bars_unique 2 [[0, 1, 2]] (Or.inl rfl) (by decide)
